import Mathlib

/-!
# Verification of the RFM customer-segmentation pipeline (`app.py`)

Shallow embedding of the RFM analysis script. The script loads a transaction
table, validates required columns, drops rows without a customer id, aggregates
per customer (Recency / Frequency / Monetary), converts each metric to a 1..5
quintile score with `pd.qcut`, classifies each customer with an ordered rule
list, attaches a suggested marketing action, and left-joins an optional
Country column.

Modelling conventions:
* numeric CSV cells (`Quantity`, `UnitPrice`) are modelled as `Int`;
* `InvoiceDate` timestamps are modelled as integer ticks (seconds); one day is
  `86400` ticks and `Timedelta.days` is floor division by `86400`;
* `pd.qcut(xs, 5, labels)` is modelled faithfully: bin edges are the linearly
  interpolated quantiles of the sorted data at positions `i*(n-1)/5` (carried
  exactly, scaled by five, as integers), a value is placed in the right-closed
  interval between consecutive edges, and non-strictly-increasing edges are
  the condition under which pandas raises
  `ValueError: Bin edges must be unique`;
* `Series.rank(method='first')` gives value `countP (< v) + countP (= v)` over
  the prefix up to and including the current position;
* `df.groupby('CustomerID')` sorts the group keys ascending (pandas default
  `sort=True`), so the aggregate table is ordered by ascending customer id;
* `Series.map {dict}` yields NaN on a key outside the dict, modelled as
  `Option.none`;
* `st.error` followed by `st.stop`, and the `ValueError` raised by `qcut`, are
  modelled as the `Except.error` branch of the pipeline.
-/

/-- A raw transaction row as read from the CSV (`CustomerID` nullable). -/
structure RawRow where
  invoiceNo : String
  invoiceDate : Int
  customerID : Option Int
  quantity : Int
  unitPrice : Int
  country : String
deriving DecidableEq

/-- A cleaned transaction row: `df.dropna(subset=['CustomerID'])` followed by
`df['CustomerID'].astype(int)` guarantees an integer customer id. -/
structure Row where
  invoiceNo : String
  invoiceDate : Int
  customerID : Int
  quantity : Int
  unitPrice : Int
  country : String
deriving DecidableEq

/-- `required_cols = {'InvoiceNo', 'Quantity', 'UnitPrice', 'InvoiceDate', 'CustomerID'}` -/
def required_cols : List String :=
  ["InvoiceNo", "Quantity", "UnitPrice", "InvoiceDate", "CustomerID"]

/-- `required_cols - set(df.columns)`: the required fields absent from the
uploaded table's column list. -/
def missingCols (cols : List String) : List String :=
  required_cols.filter (fun c => decide (c ∉ cols))

/-- Column validation (lines 43-46): on missing columns the script shows
`st.error` naming `required_cols - set(df.columns)` and calls `st.stop()`,
so nothing further runs; otherwise the raw table continues unchanged. -/
def validateColumns (cols : List String) (t : List RawRow) :
    Except (List String) (List RawRow) :=
  if missingCols cols = [] then .ok t else .error (missingCols cols)

/-- Preprocessing (lines 50-51): drop rows with a null `CustomerID`, keep the
integer id on the rest.  (`pd.to_datetime` is the identity in this embedding:
dates are already ticks.) -/
def preprocess (t : List RawRow) : List Row :=
  t.filterMap (fun r =>
    r.customerID.map (fun c => ⟨r.invoiceNo, r.invoiceDate, c, r.quantity, r.unitPrice, r.country⟩))

/-- `df['TotalPrice'] = df['Quantity'] * df['UnitPrice']` (line 53). -/
def totalPrice (r : Row) : Int := r.quantity * r.unitPrice

/-- Ticks per day: `pd.Timedelta(days=1)`. -/
def oneDay : Int := 86400

/-- `Timedelta.days`: floor division of the tick difference by one day. -/
def tdDays (t : Int) : Int := Int.fdiv t oneDay

/-- Maximum of a list of integers (`Series.max()` on a nonempty series;
the `0` returned on an empty list is never reached by the pipeline, which
evaluates maxima only over nonempty per-customer groups). -/
def listMax : List Int → Int
  | [] => 0
  | [a] => a
  | a :: b :: r => max a (listMax (b :: r))

/-- `rfm_ref_date = df['InvoiceDate'].max() + pd.Timedelta(days=1)` (line 56). -/
def rfm_ref_date (rows : List Row) : Int :=
  listMax (rows.map (·.invoiceDate)) + oneDay

/-- The transaction rows of one customer. -/
def rowsOf (rows : List Row) (c : Int) : List Row :=
  rows.filter (fun r => decide (r.customerID = c))

/-- Per-customer Recency: `(rfm_ref_date - x.max()).days` (line 58). -/
def recencyOf (rows : List Row) (c : Int) : Int :=
  tdDays (rfm_ref_date rows - listMax ((rowsOf rows c).map (·.invoiceDate)))

/-- Per-customer Frequency: `'InvoiceNo': 'nunique'` (line 59), the number of
distinct invoice numbers of the customer. -/
def frequencyOf (rows : List Row) (c : Int) : Nat :=
  ((rowsOf rows c).map (·.invoiceNo)).dedup.length

/-- Per-customer Monetary: `'TotalPrice': 'sum'` (line 60). -/
def monetaryOf (rows : List Row) (c : Int) : Int :=
  ((rowsOf rows c).map totalPrice).sum

/-- The group keys of `df.groupby('CustomerID')`: the distinct customer ids in
ascending order (pandas sorts group keys by default). -/
def customersOf (rows : List Row) : List Int :=
  ((rows.map (·.customerID)).dedup).insertionSort (fun a b => a ≤ b)

/-- One row of the per-customer aggregate table `rfm` (lines 57-62). -/
structure Agg where
  customerID : Int
  recency : Int
  frequency : Int
  monetary : Int
deriving DecidableEq

/-- Junk default used by positional indexing; never reached on in-range
indices. -/
def aggDefault : Agg := ⟨0, 0, 0, 0⟩

/-- The aggregate table `rfm` after `groupby(...).agg(...).reset_index()`:
one row per distinct customer, ordered by ascending customer id. -/
def aggTable (rows : List Row) : List Agg :=
  (customersOf rows).map (fun c =>
    ⟨c, recencyOf rows c, (frequencyOf rows c : Int), monetaryOf rows c⟩)

/-! ## Quintile scoring: the `pd.qcut` model -/

/-- The data sorted ascending (`numpy` percentile works on the sorted data). -/
def sortedOf (l : List Int) : List Int := l.insertionSort (fun a b => a ≤ b)

/-- The `k`-th smallest element (junk `0` out of range). -/
def nth (l : List Int) (k : Nat) : Int := (sortedOf l).getD k 0

/-- Five times bin edge `i` of `pd.qcut(l, 5)` for `i = 0..5`. The edge is
the linearly interpolated quantile of the data at fractional position
`p = i * (n-1) / 5` (`numpy` linear interpolation between the two
neighbouring order statistics): with `fl = ⌊p⌋` and remainder
`r = (i*(n-1)) mod 5`, the edge is `x fl + (r/5) * (x (fl+1) - x fl)`.
Since the interpolation fractions are exact fifths, five times the edge is
the integer computed here; all edge comparisons below are carried out on
this exact scaled value. -/
def qEdge5 (l : List Int) (i : Nat) : Int :=
  5 * nth l (i * (l.length - 1) / 5) +
    ((i * (l.length - 1) % 5 : Nat) : Int) *
      (nth l (i * (l.length - 1) / 5 + 1) - nth l (i * (l.length - 1) / 5))

/-- `pd.qcut` succeeds iff the computed bin edges are strictly increasing;
otherwise it raises `ValueError: Bin edges must be unique`. -/
def edgesMono (l : List Int) : Prop :=
  ∀ i, i < 5 → qEdge5 l i < qEdge5 l (i + 1)

instance (l : List Int) : Decidable (edgesMono l) :=
  inferInstanceAs (Decidable (∀ i, i < 5 → qEdge5 l i < qEdge5 l (i + 1)))

/-- The (1-based) bin a value falls into: bins are the right-closed intervals
between consecutive edges, with the minimum pulled into bin 1. Equivalently,
one plus the number of interior edges strictly below the value (compared at
scale five: `edge < v` iff `5*edge < 5*v`). -/
def qcutBin (l : List Int) (v : Int) : Nat :=
  1 + (List.range 4).countP (fun i => decide (qEdge5 l (i + 1) < 5 * v))

/-- Label selection: `pd.qcut(l, 5, labels=labels)` tags bin `b` with
`labels[b-1]` (labels are listed for ascending bins). -/
def qcutLabel (labels : List Nat) (l : List Int) (v : Int) : Nat :=
  labels.getD (qcutBin l v - 1) 0

/-- `Series.rank(method='first')` (line 66): ascending rank, ties broken by
position in the series. Entry `t` gets `#{v < value t} + #{u ≤ t with
value u = value t}`. -/
def rankFirst (fs : List Int) : List Int :=
  (List.range fs.length).map (fun t =>
    (fs.countP (fun v => decide (v < fs.getD t 0)) : Int) +
    ((fs.take (t + 1)).countP (fun v => decide (v = fs.getD t 0)) : Int))

/-- The Recency column of the aggregate table. -/
def recencies (t : List Agg) : List Int := t.map (·.recency)

/-- The Frequency column of the aggregate table. -/
def frequencies (t : List Agg) : List Int := t.map (·.frequency)

/-- The Monetary column of the aggregate table. -/
def monetaries (t : List Agg) : List Int := t.map (·.monetary)

/-- `rfm['Frequency'].rank(method='first')` (line 66). -/
def fRanks (t : List Agg) : List Int := rankFirst (frequencies t)

/-- An aggregate row with its three quintile scores (lines 65-67). -/
structure Scored where
  agg : Agg
  rScore : Nat
  fScore : Nat
  mScore : Nat
deriving DecidableEq

/-- All three `qcut` calls succeed; otherwise the script dies with
`ValueError: Bin edges must be unique`. -/
def scorerAccepts (t : List Agg) : Prop :=
  edgesMono (recencies t) ∧ edgesMono (fRanks t) ∧ edgesMono (monetaries t)

instance (t : List Agg) : Decidable (scorerAccepts t) :=
  inferInstanceAs (Decidable (_ ∧ _ ∧ _))

/-- The scored table (lines 65-67):
`R_Score = qcut(Recency, 5, labels=[5,4,3,2,1])`,
`F_Score = qcut(Frequency.rank(method='first'), 5, labels=[1,2,3,4,5])`,
`M_Score = qcut(Monetary, 5, labels=[1,2,3,4,5])`. -/
def scoreTable (t : List Agg) : List Scored :=
  (List.range t.length).map (fun i =>
    let a := t.getD i aggDefault
    ⟨a, qcutLabel [5, 4, 3, 2, 1] (recencies t) a.recency,
        qcutLabel [1, 2, 3, 4, 5] (fRanks t) ((fRanks t).getD i 0),
        qcutLabel [1, 2, 3, 4, 5] (monetaries t) a.monetary⟩)

/-! ## Segmentation, actions, RFM score string -/

/-- `segment_customer` (lines 72-87): the ordered decision list over the three
scores, first match wins. -/
def segment_customer (r f m : Nat) : String :=
  if 4 ≤ r ∧ 4 ≤ f ∧ 4 ≤ m then "Champions"
  else if 3 ≤ r ∧ 3 ≤ f ∧ 3 ≤ m then "Loyal Customers"
  else if 4 ≤ r ∧ f ≤ 2 then "Potential Loyalist"
  else if 3 ≤ r ∧ f ≤ 2 then "Recent Customers"
  else if r ≤ 2 ∧ 4 ≤ f then "At Risk"
  else if r ≤ 2 ∧ f ≤ 2 then "Lost"
  else "Others"

/-- `rfm['Segment'].map {...}` (lines 92-100): the fixed segment-to-action
dictionary; a key outside the dictionary would map to NaN (`none`). -/
def suggestedAction : String → Option String
  | "Champions" => some "Offer VIP loyalty reward"
  | "Loyal Customers" => some "Upsell premium products"
  | "Potential Loyalist" => some "Send exclusive preview"
  | "Recent Customers" => some "Welcome email & offer"
  | "At Risk" => some "Send win-back campaign"
  | "Lost" => some "Big discount or let go"
  | "Others" => some "General promotions"
  | _ => none

/-- `rfm['RFM_Score'] = R.astype(str) + F.astype(str) + M.astype(str)`
(line 68). -/
def rfmScoreStr (r f m : Nat) : String :=
  toString r ++ toString f ++ toString m

/-- A fully classified customer row of the `rfm` table (lines 65-100). -/
structure FinalRec where
  agg : Agg
  rScore : Nat
  fScore : Nat
  mScore : Nat
  rfmScore : String
  segment : String
  action : Option String
deriving DecidableEq

/-- Scores, score string, segment and suggested action for every customer. -/
def finalTable (t : List Agg) : List FinalRec :=
  (scoreTable t).map (fun s =>
    ⟨s.agg, s.rScore, s.fScore, s.mScore,
     rfmScoreStr s.rScore s.fScore s.mScore,
     segment_customer s.rScore s.fScore s.mScore,
     suggestedAction (segment_customer s.rScore s.fScore s.mScore)⟩)

/-! ## The optional Country left-join -/

/-- `drop_duplicates` keeps the first occurrence of each element. -/
def dedupFirst (l : List (Int × String)) : List (Int × String) :=
  l.foldl (fun acc p => if p ∈ acc then acc else acc ++ [p]) []

/-- `df[['CustomerID','Country']].drop_duplicates()` (line 104). -/
def countryPairs (rows : List Row) : List (Int × String) :=
  dedupFirst (rows.map (fun r => (r.customerID, r.country)))

/-- The merge result rows contributed by one rfm row: one output row per
matching (CustomerID, Country) pair, or a single row with a null Country when
no pair matches (`how='left'`). -/
def mergeEmit (rows : List Row) (rec : FinalRec) : List (FinalRec × Option String) :=
  if ((countryPairs rows).filter (fun q => decide (q.1 = rec.agg.customerID))) = []
  then [(rec, none)]
  else ((countryPairs rows).filter (fun q => decide (q.1 = rec.agg.customerID))).map
    (fun q => (rec, some q.2))

/-- `rfm.merge(pairs, on='CustomerID', how='left')` (line 104). -/
def mergeCountry (fin : List FinalRec) (rows : List Row) :
    List (FinalRec × Option String) :=
  fin.flatMap (mergeEmit rows)

/-- The whole script as one function from the uploaded table to the final
merged rfm table; `Except.error` collects the two fatal stops (missing
columns, non-unique bin edges). -/
def pipeline (cols : List String) (raw : List RawRow) :
    Except (List String) (List (FinalRec × Option String)) := do
  let t ← validateColumns cols raw
  let rows := preprocess t
  let agg := aggTable rows
  if scorerAccepts agg then
    pure (mergeCountry (finalTable agg) rows)
  else
    .error ["Bin edges must be unique"]

/-! ## General list lemmas -/

lemma map_getD_range {α : Type} (l : List α) (d : α) :
    (List.range l.length).map (fun i => l.getD i d) = l := by
  induction l with
  | nil => simp
  | cons a t ih =>
    simp only [List.length_cons, List.range_succ_eq_map, List.map_cons, List.map_map,
      Function.comp_def, List.getD_cons_zero, List.getD_cons_succ, Nat.succ_eq_add_one]
    rw [ih]

lemma countP_range_getD {α : Type} (l : List α) (d : α) (p : α → Bool) :
    (List.range l.length).countP (fun i => p (l.getD i d)) = l.countP p := by
  conv_rhs => rw [← map_getD_range l d]
  rw [List.countP_map]
  rfl

lemma countP_eq_one_of_nodup_mem {α : Type} [DecidableEq α] {l : List α} {c : α}
    (hd : l.Nodup) (hc : c ∈ l) :
    l.countP (fun x => decide (x = c)) = 1 := by
  induction l with
  | nil => simp at hc
  | cons a t ih =>
    rcases List.nodup_cons.mp hd with ⟨ha, ht⟩
    rw [List.countP_cons]
    by_cases hac : a = c
    · subst hac
      have hz : t.countP (fun x => decide (x = a)) = 0 := by
        rw [List.countP_eq_zero]
        intro b hb
        simp only [decide_eq_true_eq]
        intro hba
        exact ha (hba ▸ hb)
      simp [hz]
    · have hcm : c ∈ t := by
        rcases List.mem_cons.mp hc with h | h
        · exact absurd h.symm hac
        · exact h
      simp [ih ht hcm, hac]

lemma countP_range_band (a b n : Nat) :
    (List.range n).countP (fun j => decide (a ≤ j ∧ j ≤ b)) = min (b + 1) n - min a n := by
  induction n with
  | zero => simp
  | succ n ih =>
    rw [List.range_succ, List.countP_append, ih, List.countP_cons, List.countP_nil]
    by_cases h : a ≤ n ∧ n ≤ b <;> simp [h] <;> omega

/-! ## Lemmas on `listMax` -/

lemma listMax_mem : ∀ {l : List Int}, l ≠ [] → listMax l ∈ l := by
  intro l h
  induction l with
  | nil => exact absurd rfl h
  | cons a t ih =>
    cases t with
    | nil => simp [listMax]
    | cons b r =>
      show max a (listMax (b :: r)) ∈ a :: b :: r
      rcases le_total a (listMax (b :: r)) with hab | hab
      · rw [max_eq_right hab]
        exact List.mem_cons_of_mem _ (ih (by simp))
      · rw [max_eq_left hab]
        exact List.mem_cons_self _ _

lemma le_listMax : ∀ {l : List Int} {x : Int}, x ∈ l → x ≤ listMax l := by
  intro l
  induction l with
  | nil => intro x h; simp at h
  | cons a t ih =>
    intro x h
    cases t with
    | nil =>
      rw [List.mem_singleton] at h
      subst h
      exact le_refl _
    | cons b r =>
      show x ≤ max a (listMax (b :: r))
      rcases List.mem_cons.mp h with rfl | hx
      · exact le_max_left _ _
      · exact le_trans (ih hx) (le_max_right _ _)

lemma listMax_perm {l₁ l₂ : List Int} (h : l₁.Perm l₂) : listMax l₁ = listMax l₂ := by
  rcases eq_or_ne l₁ [] with rfl | h1
  · rw [h.symm.eq_nil]
  · have h2 : l₂ ≠ [] := by
      intro e
      subst e
      exact h1 h.eq_nil
    exact le_antisymm (le_listMax (h.mem_iff.mp (listMax_mem h1)))
      (le_listMax (h.symm.mem_iff.mp (listMax_mem h2)))

/-! ## Lemmas on the sorted view -/

lemma sortedOf_perm (l : List Int) : (sortedOf l).Perm l :=
  List.perm_insertionSort _ l

lemma sortedOf_sorted (l : List Int) : (sortedOf l).Sorted (fun a b => a ≤ b) :=
  List.sorted_insertionSort _ l

lemma sortedOf_strict {l : List Int} (hd : l.Nodup) :
    (sortedOf l).Sorted (fun a b => a < b) :=
  (sortedOf_sorted l).lt_of_le ((sortedOf_perm l).nodup_iff.mpr hd)

lemma sortedOf_length (l : List Int) : (sortedOf l).length = l.length :=
  (sortedOf_perm l).length_eq

lemma nth_lt_nth_iff {l : List Int} (hd : l.Nodup) {a b : Nat}
    (ha : a < l.length) (hb : b < l.length) :
    nth l a < nth l b ↔ a < b := by
  have ha2 : a < (sortedOf l).length := by rw [sortedOf_length]; exact ha
  have hb2 : b < (sortedOf l).length := by rw [sortedOf_length]; exact hb
  have hs := (sortedOf_strict hd).get_strictMono
  have h := hs.lt_iff_lt (a := (⟨a, ha2⟩ : Fin (sortedOf l).length)) (b := ⟨b, hb2⟩)
  rw [Fin.mk_lt_mk] at h
  unfold nth
  rw [List.getD_eq_getElem _ _ ha2, List.getD_eq_getElem _ _ hb2]
  exact h

/-! ## Lemmas on `qcutBin` -/

lemma qcutBin_pos (l : List Int) (v : Int) : 1 ≤ qcutBin l v :=
  Nat.le_add_right 1 _

lemma qcutBin_le_five (l : List Int) (v : Int) : qcutBin l v ≤ 5 := by
  have h := List.countP_le_length (fun i => decide (qEdge5 l (i + 1) < 5 * v))
    (l := List.range 4)
  rw [List.length_range] at h
  unfold qcutBin
  omega

lemma qcutBin_mono (l : List Int) {v w : Int} (h : v ≤ w) :
    qcutBin l v ≤ qcutBin l w := by
  unfold qcutBin
  have hm : (List.range 4).countP (fun i => decide (qEdge5 l (i + 1) < 5 * v)) ≤
      (List.range 4).countP (fun i => decide (qEdge5 l (i + 1) < 5 * w)) := by
    apply List.countP_mono_left
    intro x _ hx
    simp only [decide_eq_true_eq] at hx ⊢
    omega
  omega

/-- The key geometric fact about the `qcut` edges on duplicate-free data:
interior edge `i` lies strictly below the `j`-th order statistic exactly when
the integer part of the edge position lies strictly below `j`. -/
lemma qEdge5_lt_iff {l : List Int} (hd : l.Nodup) {j : Nat} (hj : j < l.length)
    {i : Nat} (hi1 : 1 ≤ i) (hi4 : i ≤ 4) :
    qEdge5 l i < 5 * nth l j ↔ i * (l.length - 1) / 5 < j := by
  set n := l.length with hn
  have hn1 : 1 ≤ n := by omega
  have hfln : i * (n - 1) / 5 ≤ n - 1 := by
    have h1 : i * (n - 1) ≤ 5 * (n - 1) := Nat.mul_le_mul_right _ (by omega)
    calc i * (n - 1) / 5 ≤ 5 * (n - 1) / 5 := Nat.div_le_div_right h1
      _ = n - 1 := Nat.mul_div_cancel_left _ (by norm_num)
  have hfl_lt_n : i * (n - 1) / 5 < n := by omega
  unfold qEdge5
  rw [← hn]
  by_cases hr0 : i * (n - 1) % 5 = 0
  · rw [hr0]
    rw [show ((0 : Nat) : Int) = 0 from rfl, zero_mul, add_zero]
    constructor
    · intro h
      have hAj : nth l (i * (n - 1) / 5) < nth l j := by omega
      exact (nth_lt_nth_iff hd hfl_lt_n hj).mp hAj
    · intro h
      have hAj : nth l (i * (n - 1) / 5) < nth l j :=
        (nth_lt_nth_iff hd hfl_lt_n hj).mpr h
      omega
  · have hn2 : 2 ≤ n := by
      by_contra hc
      have he : n - 1 = 0 := by omega
      rw [he, Nat.mul_zero] at hr0
      exact hr0 rfl
    have hrlo : 1 ≤ (i * (n - 1) % 5 : Nat) := by omega
    have hrhi : (i * (n - 1) % 5 : Nat) ≤ 4 := by omega
    have hflm : i * (n - 1) / 5 < n - 1 := by
      have hx : i * (n - 1) < (n - 1) * 5 := by
        have h4 : i * (n - 1) ≤ 4 * (n - 1) := Nat.mul_le_mul_right _ hi4
        omega
      exact (Nat.div_lt_iff_lt_mul (by norm_num)).mpr hx
    have hAB : nth l (i * (n - 1) / 5) < nth l (i * (n - 1) / 5 + 1) := by
      rw [nth_lt_nth_iff hd (by omega) (by omega)]
      omega
    have hr1 : (1 : Int) ≤ ((i * (n - 1) % 5 : Nat) : Int) := by exact_mod_cast hrlo
    have hr4 : ((i * (n - 1) % 5 : Nat) : Int) ≤ 4 := by exact_mod_cast hrhi
    set r : Int := ((i * (n - 1) % 5 : Nat) : Int) with hrdef
    set A := nth l (i * (n - 1) / 5) with hA
    set B := nth l (i * (n - 1) / 5 + 1) with hB
    constructor
    · intro h
      have hAe : 5 * A < 5 * A + r * (B - A) := by
        nlinarith [mul_pos (show (0:Int) < r by omega) (sub_pos.mpr hAB)]
      have hAj : A < nth l j := by omega
      exact (nth_lt_nth_iff hd hfl_lt_n hj).mp hAj
    · intro h
      have hj1 : B ≤ nth l j := by
        rcases eq_or_lt_of_le (show i * (n - 1) / 5 + 1 ≤ j by omega) with he | hlt
        · rw [hB, he]
        · exact le_of_lt ((nth_lt_nth_iff hd (by omega) hj).mpr hlt)
      have hEB : 5 * A + r * (B - A) < 5 * B := by
        nlinarith [mul_pos (show (0:Int) < 5 - r by omega) (sub_pos.mpr hAB)]
      omega

/-- On duplicate-free data the bin of the `j`-th order statistic is determined
by the integer parts of the four interior edge positions. -/
lemma qcutBin_nth {l : List Int} (hd : l.Nodup) {j : Nat} (hj : j < l.length) :
    qcutBin l (nth l j) =
      1 + (List.range 4).countP (fun i => decide ((i + 1) * (l.length - 1) / 5 < j)) := by
  unfold qcutBin
  congr 1
  apply List.countP_congr
  intro i hi
  rw [List.mem_range] at hi
  simp only [decide_eq_true_eq]
  exact qEdge5_lt_iff hd hj (by omega) (by omega)

/-- Transport a per-index characterization of a bin into a closed formula for
how many data points receive that bin. -/
lemma countScore_eq {l : List Int} (k a b : Nat)
    (hab : ∀ j, j < l.length →
      (qcutBin l (nth l j) = k ↔ (a ≤ j ∧ j ≤ b))) :
    l.countP (fun v => decide (qcutBin l v = k)) =
      min (b + 1) l.length - min a l.length := by
  have h1 : l.countP (fun v => decide (qcutBin l v = k)) =
      (sortedOf l).countP (fun v => decide (qcutBin l v = k)) :=
    ((sortedOf_perm l).countP_eq _).symm
  have h2 := countP_range_getD (sortedOf l) 0 (fun v => decide (qcutBin l v = k))
  rw [h1, ← h2, sortedOf_length]
  have h3 : (List.range l.length).countP
        (fun i => decide (qcutBin l ((sortedOf l).getD i 0) = k)) =
      (List.range l.length).countP (fun j => decide (a ≤ j ∧ j ≤ b)) := by
    apply List.countP_congr
    intro j hj
    rw [List.mem_range] at hj
    simp only [decide_eq_true_eq]
    exact hab j hj
  rw [h3, countP_range_band]

/-- Equal-frequency property of `pd.qcut` on duplicate-free data: each of the
five bins receives within one of a fifth of the population. -/
lemma qcut_balanced {l : List Int} (hd : l.Nodup) {k : Nat}
    (hk1 : 1 ≤ k) (hk5 : k ≤ 5) :
    l.length ≤ 5 * l.countP (fun v => decide (qcutBin l v = k)) + 5 ∧
    5 * l.countP (fun v => decide (qcutBin l v = k)) ≤ l.length + 5 := by
  have hrange : (List.range 4) = [0, 1, 2, 3] := rfl
  interval_cases k
  · rw [countScore_eq 1 0 (1 * (l.length - 1) / 5) (by
      intro j hj
      rw [qcutBin_nth hd hj, hrange]
      simp only [List.countP_cons, List.countP_nil, decide_eq_true_eq]
      split_ifs <;> omega)]
    omega
  · rw [countScore_eq 2 (1 * (l.length - 1) / 5 + 1) (2 * (l.length - 1) / 5) (by
      intro j hj
      rw [qcutBin_nth hd hj, hrange]
      simp only [List.countP_cons, List.countP_nil, decide_eq_true_eq]
      split_ifs <;> omega)]
    omega
  · rw [countScore_eq 3 (2 * (l.length - 1) / 5 + 1) (3 * (l.length - 1) / 5) (by
      intro j hj
      rw [qcutBin_nth hd hj, hrange]
      simp only [List.countP_cons, List.countP_nil, decide_eq_true_eq]
      split_ifs <;> omega)]
    omega
  · rw [countScore_eq 4 (3 * (l.length - 1) / 5 + 1) (4 * (l.length - 1) / 5) (by
      intro j hj
      rw [qcutBin_nth hd hj, hrange]
      simp only [List.countP_cons, List.countP_nil, decide_eq_true_eq]
      split_ifs <;> omega)]
    omega
  · rw [countScore_eq 5 (4 * (l.length - 1) / 5 + 1) (l.length - 1) (by
      intro j hj
      rw [qcutBin_nth hd hj, hrange]
      simp only [List.countP_cons, List.countP_nil, decide_eq_true_eq]
      split_ifs <;> omega)]
    omega

/-! ## Label lemmas -/

lemma qcutLabel_desc (l : List Int) (v : Int) :
    qcutLabel [5, 4, 3, 2, 1] l v = 6 - qcutBin l v := by
  have h1 := qcutBin_pos l v
  have h5 := qcutBin_le_five l v
  have hc : qcutBin l v = 1 ∨ qcutBin l v = 2 ∨ qcutBin l v = 3 ∨
      qcutBin l v = 4 ∨ qcutBin l v = 5 := by omega
  unfold qcutLabel
  rcases hc with h | h | h | h | h <;> rw [h] <;> rfl

lemma qcutLabel_asc (l : List Int) (v : Int) :
    qcutLabel [1, 2, 3, 4, 5] l v = qcutBin l v := by
  have h1 := qcutBin_pos l v
  have h5 := qcutBin_le_five l v
  have hc : qcutBin l v = 1 ∨ qcutBin l v = 2 ∨ qcutBin l v = 3 ∨
      qcutBin l v = 4 ∨ qcutBin l v = 5 := by omega
  unfold qcutLabel
  rcases hc with h | h | h | h | h <;> rw [h] <;> rfl

/-! ## Order-independence of the aggregation -/

lemma rowsOf_perm {r₁ r₂ : List Row} (h : r₁.Perm r₂) (c : Int) :
    (rowsOf r₁ c).Perm (rowsOf r₂ c) := h.filter _

lemma rfm_ref_date_perm {r₁ r₂ : List Row} (h : r₁.Perm r₂) :
    rfm_ref_date r₁ = rfm_ref_date r₂ := by
  unfold rfm_ref_date
  rw [listMax_perm (h.map _)]

lemma recencyOf_perm {r₁ r₂ : List Row} (h : r₁.Perm r₂) (c : Int) :
    recencyOf r₁ c = recencyOf r₂ c := by
  unfold recencyOf
  rw [rfm_ref_date_perm h, listMax_perm ((rowsOf_perm h c).map _)]

lemma frequencyOf_perm {r₁ r₂ : List Row} (h : r₁.Perm r₂) (c : Int) :
    frequencyOf r₁ c = frequencyOf r₂ c := by
  unfold frequencyOf
  exact (((rowsOf_perm h c).map _).dedup).length_eq

lemma monetaryOf_perm {r₁ r₂ : List Row} (h : r₁.Perm r₂) (c : Int) :
    monetaryOf r₁ c = monetaryOf r₂ c :=
  ((rowsOf_perm h c).map _).sum_eq

lemma customersOf_perm {r₁ r₂ : List Row} (h : r₁.Perm r₂) :
    customersOf r₁ = customersOf r₂ := by
  have p1 : (customersOf r₁).Perm ((r₁.map (·.customerID)).dedup) :=
    List.perm_insertionSort _ _
  have p2 : ((r₁.map (·.customerID)).dedup).Perm ((r₂.map (·.customerID)).dedup) :=
    (h.map _).dedup
  have p3 : ((r₂.map (·.customerID)).dedup).Perm (customersOf r₂) :=
    (List.perm_insertionSort _ _).symm
  exact List.eq_of_perm_of_sorted ((p1.trans p2).trans p3)
    (List.sorted_insertionSort _ _) (List.sorted_insertionSort _ _)

lemma aggTable_perm {r₁ r₂ : List Row} (h : r₁.Perm r₂) :
    aggTable r₁ = aggTable r₂ := by
  unfold aggTable
  rw [customersOf_perm h]
  have hf : (fun c => (⟨c, recencyOf r₁ c, (frequencyOf r₁ c : Int), monetaryOf r₁ c⟩ : Agg)) =
      (fun c => (⟨c, recencyOf r₂ c, (frequencyOf r₂ c : Int), monetaryOf r₂ c⟩ : Agg)) := by
    funext c
    rw [recencyOf_perm h c, frequencyOf_perm h c, monetaryOf_perm h c]
  rw [hf]

/-! ## Lemmas relating the scored table to the raw columns -/

lemma length_rankFirst (fs : List Int) : (rankFirst fs).length = fs.length := by
  unfold rankFirst
  rw [List.length_map, List.length_range]

lemma length_fRanks (t : List Agg) : (fRanks t).length = t.length := by
  unfold fRanks frequencies
  rw [length_rankFirst, List.length_map]

lemma length_recencies (t : List Agg) : (recencies t).length = t.length :=
  List.length_map _ _

lemma length_monetaries (t : List Agg) : (monetaries t).length = t.length :=
  List.length_map _ _

lemma mem_scoreTable_r {t : List Agg} {s : Scored} (hs : s ∈ scoreTable t) :
    s.agg ∈ t ∧ s.rScore = 6 - qcutBin (recencies t) s.agg.recency := by
  unfold scoreTable at hs
  rcases List.mem_map.mp hs with ⟨i, hi, he⟩
  rw [List.mem_range] at hi
  subst he
  dsimp only
  constructor
  · rw [List.getD_eq_getElem t aggDefault hi]
    exact List.getElem_mem hi
  · rw [qcutLabel_desc]

lemma mem_scoreTable_bounds {t : List Agg} {s : Scored} (hs : s ∈ scoreTable t) :
    (1 ≤ s.rScore ∧ s.rScore ≤ 5) ∧ (1 ≤ s.fScore ∧ s.fScore ≤ 5) ∧
      (1 ≤ s.mScore ∧ s.mScore ≤ 5) := by
  unfold scoreTable at hs
  rcases List.mem_map.mp hs with ⟨i, hi, he⟩
  subst he
  dsimp only
  refine ⟨?_, ?_, ?_⟩
  · rw [qcutLabel_desc]
    have h1 := qcutBin_pos (recencies t) (t.getD i aggDefault).recency
    have h5 := qcutBin_le_five (recencies t) (t.getD i aggDefault).recency
    omega
  · rw [qcutLabel_asc]
    exact ⟨qcutBin_pos _ _, qcutBin_le_five _ _⟩
  · rw [qcutLabel_asc]
    exact ⟨qcutBin_pos _ _, qcutBin_le_five _ _⟩

lemma countP_scoreTable_r (t : List Agg) {k : Nat} (hk1 : 1 ≤ k) (hk5 : k ≤ 5) :
    (scoreTable t).countP (fun s => decide (s.rScore = k)) =
      (recencies t).countP (fun v => decide (qcutBin (recencies t) v = 6 - k)) := by
  have hmid : (scoreTable t).countP (fun s => decide (s.rScore = k)) =
      (List.range t.length).countP
        (fun i => decide (qcutBin (recencies t) ((recencies t).getD i 0) = 6 - k)) := by
    unfold scoreTable
    rw [List.countP_map]
    apply List.countP_congr
    intro i hi
    rw [List.mem_range] at hi
    simp only [Function.comp_def, decide_eq_true_eq]
    rw [qcutLabel_desc]
    have hrec : (recencies t).getD i 0 = (t.getD i aggDefault).recency := by
      unfold recencies
      rw [List.getD_eq_getElem _ _ (by rw [List.length_map]; exact hi),
          List.getD_eq_getElem t aggDefault hi, List.getElem_map]
    rw [hrec]
    have hb1 := qcutBin_pos (recencies t) ((t.getD i aggDefault).recency)
    have hb5 := qcutBin_le_five (recencies t) ((t.getD i aggDefault).recency)
    omega
  rw [hmid, ← length_recencies t]
  exact countP_range_getD (recencies t) 0 (fun v => decide (qcutBin (recencies t) v = 6 - k))

lemma countP_scoreTable_f (t : List Agg) (k : Nat) :
    (scoreTable t).countP (fun s => decide (s.fScore = k)) =
      (fRanks t).countP (fun v => decide (qcutBin (fRanks t) v = k)) := by
  have hmid : (scoreTable t).countP (fun s => decide (s.fScore = k)) =
      (List.range t.length).countP
        (fun i => decide (qcutBin (fRanks t) ((fRanks t).getD i 0) = k)) := by
    unfold scoreTable
    rw [List.countP_map]
    apply List.countP_congr
    intro i hi
    simp only [Function.comp_def, decide_eq_true_eq]
    rw [qcutLabel_asc]
  rw [hmid, ← length_fRanks t]
  exact countP_range_getD (fRanks t) 0 (fun v => decide (qcutBin (fRanks t) v = k))

lemma countP_scoreTable_m (t : List Agg) (k : Nat) :
    (scoreTable t).countP (fun s => decide (s.mScore = k)) =
      (monetaries t).countP (fun v => decide (qcutBin (monetaries t) v = k)) := by
  have hmid : (scoreTable t).countP (fun s => decide (s.mScore = k)) =
      (List.range t.length).countP
        (fun i => decide (qcutBin (monetaries t) ((monetaries t).getD i 0) = k)) := by
    unfold scoreTable
    rw [List.countP_map]
    apply List.countP_congr
    intro i hi
    rw [List.mem_range] at hi
    simp only [Function.comp_def, decide_eq_true_eq]
    rw [qcutLabel_asc]
    have hmon : (monetaries t).getD i 0 = (t.getD i aggDefault).monetary := by
      unfold monetaries
      rw [List.getD_eq_getElem _ _ (by rw [List.length_map]; exact hi),
          List.getD_eq_getElem t aggDefault hi, List.getElem_map]
    rw [hmon]
  rw [hmid, ← length_monetaries t]
  exact countP_range_getD (monetaries t) 0 (fun v => decide (qcutBin (monetaries t) v = k))

/-! ## Row multiplicities in the classified and merged tables -/

lemma countP_scoreTable_agg (t : List Agg) (p : Agg → Bool) :
    (scoreTable t).countP (fun s => p s.agg) = t.countP p := by
  unfold scoreTable
  rw [List.countP_map]
  exact countP_range_getD t aggDefault p

lemma countP_finalTable_agg (t : List Agg) (p : Agg → Bool) :
    (finalTable t).countP (fun rec => p rec.agg) = t.countP p := by
  unfold finalTable
  rw [List.countP_map]
  exact countP_scoreTable_agg t p

lemma countP_aggTable_cid (rows : List Row) (c : Int) :
    (aggTable rows).countP (fun a => decide (a.customerID = c)) =
      (customersOf rows).countP (fun x => decide (x = c)) := by
  unfold aggTable
  rw [List.countP_map]
  rfl

lemma customersOf_nodup (rows : List Row) : (customersOf rows).Nodup :=
  (List.perm_insertionSort _ _).nodup_iff.mpr (List.nodup_dedup _)

lemma mem_customersOf {rows : List Row} {c : Int} :
    c ∈ customersOf rows ↔ c ∈ rows.map (·.customerID) := by
  unfold customersOf
  rw [(List.perm_insertionSort _ _).mem_iff, List.mem_dedup]

lemma finalTable_cid_once {rows : List Row} {c : Int}
    (hc : c ∈ rows.map (·.customerID)) :
    (finalTable (aggTable rows)).countP
      (fun rec => decide (rec.agg.customerID = c)) = 1 :=
  (countP_finalTable_agg (aggTable rows) (fun a => decide (a.customerID = c))).trans
    ((countP_aggTable_cid rows c).trans
      (countP_eq_one_of_nodup_mem (customersOf_nodup rows) (mem_customersOf.mpr hc)))

lemma countP_mergeEmit (rows : List Row) (c : Int) (rec : FinalRec)
    (hone : (countryPairs rows).countP (fun q => decide (q.1 = c)) ≤ 1) :
    (mergeEmit rows rec).countP (fun pr => decide (pr.1.agg.customerID = c)) =
      if rec.agg.customerID = c then 1 else 0 := by
  unfold mergeEmit
  by_cases hc : rec.agg.customerID = c
  · subst hc
    rw [if_pos rfl]
    by_cases hms : ((countryPairs rows).filter
        (fun q => decide (q.1 = rec.agg.customerID))) = []
    · rw [if_pos hms]
      simp
    · rw [if_neg hms, List.countP_map]
      have hconst : ((countryPairs rows).filter
          (fun q => decide (q.1 = rec.agg.customerID))).countP
            ((fun pr : FinalRec × Option String =>
              decide (pr.1.agg.customerID = rec.agg.customerID)) ∘
              (fun q : Int × String => (rec, some q.2))) =
          ((countryPairs rows).filter
            (fun q => decide (q.1 = rec.agg.customerID))).length := by
        simp [Function.comp_def]
      rw [hconst]
      have h1 : 0 < ((countryPairs rows).filter
          (fun q => decide (q.1 = rec.agg.customerID))).length :=
        List.length_pos.mpr hms
      have h2 : ((countryPairs rows).filter
          (fun q => decide (q.1 = rec.agg.customerID))).length ≤ 1 := by
        rw [← List.countP_eq_length_filter]
        exact hone
      omega
  · rw [if_neg hc]
    by_cases hms : ((countryPairs rows).filter
        (fun q => decide (q.1 = rec.agg.customerID))) = []
    · rw [if_pos hms]
      simp [hc]
    · rw [if_neg hms, List.countP_map, List.countP_eq_zero]
      intro q hq
      simp only [Function.comp_def, decide_eq_true_eq]
      exact hc

lemma countP_mergeCountry (rows : List Row) (c : Int)
    (hone : (countryPairs rows).countP (fun q => decide (q.1 = c)) ≤ 1)
    (fin : List FinalRec) :
    (mergeCountry fin rows).countP (fun pr => decide (pr.1.agg.customerID = c)) =
      fin.countP (fun rec => decide (rec.agg.customerID = c)) := by
  induction fin with
  | nil => rfl
  | cons rec fin ih =>
    unfold mergeCountry at ih ⊢
    rw [List.flatMap_cons, List.countP_append, ih, List.countP_cons,
      countP_mergeEmit rows c rec hone]
    by_cases hc : rec.agg.customerID = c <;> simp [hc, Nat.add_comm]

/-! ## The segment and action vocabulary -/

lemma segment_customer_mem (r f m : Nat) :
    segment_customer r f m ∈
      ["Champions", "Loyal Customers", "Potential Loyalist", "Recent Customers",
       "At Risk", "Lost", "Others"] := by
  unfold segment_customer
  split_ifs <;> decide

lemma suggestedAction_of_segment (r f m : Nat) :
    suggestedAction (segment_customer r f m) ∈
      [some "Offer VIP loyalty reward", some "Upsell premium products",
       some "Send exclusive preview", some "Welcome email & offer",
       some "Send win-back campaign", some "Big discount or let go",
       some "General promotions"] := by
  have h := segment_customer_mem r f m
  simp only [List.mem_cons, List.not_mem_nil, or_false] at h
  rcases h with h | h | h | h | h | h | h <;> rw [h] <;> decide

/-! ## Concrete tables used in the closed theorems below -/

/-- A two-customer cleaned table: customer 7 with two invoices (both recorded
in France), customer 8 with one invoice in Spain. Dates are whole days of
86400 ticks (days 10, 11 and 12). -/
def exRows : List Row :=
  [⟨"A1", 864000, 7, 1, 5, "France"⟩,
   ⟨"A2", 950400, 7, 2, 3, "France"⟩,
   ⟨"B1", 1036800, 8, 1, 4, "Spain"⟩]

/-- `exRows` with its rows rotated: a nontrivial permutation of `exRows`. -/
def exRowsP : List Row :=
  [⟨"B1", 1036800, 8, 1, 4, "Spain"⟩,
   ⟨"A1", 864000, 7, 1, 5, "France"⟩,
   ⟨"A2", 950400, 7, 2, 3, "France"⟩]

/-- Same shape as `exRows` but customer 7's two invoices are recorded under
two different countries. -/
def twoCountryRows : List Row :=
  [⟨"A1", 864000, 7, 1, 5, "France"⟩,
   ⟨"A2", 950400, 7, 2, 3, "Germany"⟩,
   ⟨"B1", 1036800, 8, 1, 4, "Spain"⟩]

/-- A ten-customer aggregate table with tied Recency values that `pd.qcut`
still accepts (its Recency bin edges are 1, 2, 13/5, 22/5, 31/5, 8). -/
def tiedRecencyTable : List Agg :=
  [⟨1, 1, 1, 10⟩, ⟨2, 2, 2, 20⟩, ⟨3, 2, 3, 30⟩, ⟨4, 2, 4, 40⟩, ⟨5, 3, 5, 50⟩,
   ⟨6, 4, 6, 60⟩, ⟨7, 5, 7, 70⟩, ⟨8, 6, 8, 80⟩, ⟨9, 7, 9, 90⟩, ⟨10, 8, 10, 100⟩]

/-- A five-customer aggregate table with pairwise distinct metric values. -/
def distinctTable : List Agg :=
  [⟨1, 1, 1, 10⟩, ⟨2, 2, 2, 20⟩, ⟨3, 3, 3, 30⟩, ⟨4, 4, 4, 40⟩, ⟨5, 5, 5, 50⟩]

/-- The three-customer scenario of the spec: customer 1 bought yesterday,
customer 2 thirty days ago, customer 3 ninety days ago. -/
def scenarioTable : List Agg := [⟨1, 1, 5, 100⟩, ⟨2, 30, 3, 50⟩, ⟨3, 90, 1, 10⟩]

/-- Five customers; 20 and 30 have equal Frequency 1, and customer 30's only
transaction appears before customer 20's in the raw row order. Dates are
whole days (days 88..100). -/
def tieRows : List Row :=
  [⟨"I3", 8208000, 30, 1, 7, "X"⟩,
   ⟨"I2", 8294400, 20, 1, 9, "X"⟩,
   ⟨"I1a", 8380800, 10, 2, 5, "X"⟩, ⟨"I1b", 8467200, 10, 1, 6, "X"⟩,
   ⟨"I1c", 7776000, 10, 1, 4, "X"⟩,
   ⟨"I4a", 8553600, 40, 3, 10, "X"⟩, ⟨"I4b", 7948800, 40, 1, 1, "X"⟩,
   ⟨"I5a", 8640000, 50, 1, 10, "X"⟩, ⟨"I5b", 7862400, 50, 1, 10, "X"⟩,
   ⟨"I5c", 7689600, 50, 1, 10, "X"⟩, ⟨"I5d", 7603200, 50, 1, 12, "X"⟩]

/-- `tieRows` with the rows of customers 20 and 30 swapped, so customer 20's
transaction is now first-seen. -/
def tieRowsP : List Row :=
  [⟨"I2", 8294400, 20, 1, 9, "X"⟩,
   ⟨"I3", 8208000, 30, 1, 7, "X"⟩,
   ⟨"I1a", 8380800, 10, 2, 5, "X"⟩, ⟨"I1b", 8467200, 10, 1, 6, "X"⟩,
   ⟨"I1c", 7776000, 10, 1, 4, "X"⟩,
   ⟨"I4a", 8553600, 40, 3, 10, "X"⟩, ⟨"I4b", 7948800, 40, 1, 1, "X"⟩,
   ⟨"I5a", 8640000, 50, 1, 10, "X"⟩, ⟨"I5b", 7862400, 50, 1, 10, "X"⟩,
   ⟨"I5c", 7689600, 50, 1, 10, "X"⟩, ⟨"I5d", 7603200, 50, 1, 12, "X"⟩]

/-! ## The claims -/

/-- C1: for every score triple (R,F,M) with each component in [1,5], the
segment classifier is the ordered decision list with first match winning:
R≥4∧F≥4∧M≥4 gives Champions; else R≥3∧F≥3∧M≥3 gives Loyal Customers; else
R≥4∧F≤2 gives Potential Loyalist; else R≥3∧F≤2 gives Recent Customers; else
R≤2∧F≥4 gives At Risk; else R≤2∧F≤2 gives Lost; else Others. -/
theorem segment_rule_table (r f m : Nat)
    (hr1 : 1 ≤ r) (hr5 : r ≤ 5) (hf1 : 1 ≤ f) (hf5 : f ≤ 5)
    (hm1 : 1 ≤ m) (hm5 : m ≤ 5) :
    (segment_customer r f m = "Champions" ↔ (4 ≤ r ∧ 4 ≤ f ∧ 4 ≤ m)) ∧
    (segment_customer r f m = "Loyal Customers" ↔
      (¬(4 ≤ r ∧ 4 ≤ f ∧ 4 ≤ m) ∧ (3 ≤ r ∧ 3 ≤ f ∧ 3 ≤ m))) ∧
    (segment_customer r f m = "Potential Loyalist" ↔
      (¬(4 ≤ r ∧ 4 ≤ f ∧ 4 ≤ m) ∧ ¬(3 ≤ r ∧ 3 ≤ f ∧ 3 ≤ m) ∧ (4 ≤ r ∧ f ≤ 2))) ∧
    (segment_customer r f m = "Recent Customers" ↔
      (¬(4 ≤ r ∧ 4 ≤ f ∧ 4 ≤ m) ∧ ¬(3 ≤ r ∧ 3 ≤ f ∧ 3 ≤ m) ∧ ¬(4 ≤ r ∧ f ≤ 2) ∧
        (3 ≤ r ∧ f ≤ 2))) ∧
    (segment_customer r f m = "At Risk" ↔
      (¬(4 ≤ r ∧ 4 ≤ f ∧ 4 ≤ m) ∧ ¬(3 ≤ r ∧ 3 ≤ f ∧ 3 ≤ m) ∧ ¬(4 ≤ r ∧ f ≤ 2) ∧
        ¬(3 ≤ r ∧ f ≤ 2) ∧ (r ≤ 2 ∧ 4 ≤ f))) ∧
    (segment_customer r f m = "Lost" ↔
      (¬(4 ≤ r ∧ 4 ≤ f ∧ 4 ≤ m) ∧ ¬(3 ≤ r ∧ 3 ≤ f ∧ 3 ≤ m) ∧ ¬(4 ≤ r ∧ f ≤ 2) ∧
        ¬(3 ≤ r ∧ f ≤ 2) ∧ ¬(r ≤ 2 ∧ 4 ≤ f) ∧ (r ≤ 2 ∧ f ≤ 2))) ∧
    (segment_customer r f m = "Others" ↔
      (¬(4 ≤ r ∧ 4 ≤ f ∧ 4 ≤ m) ∧ ¬(3 ≤ r ∧ 3 ≤ f ∧ 3 ≤ m) ∧ ¬(4 ≤ r ∧ f ≤ 2) ∧
        ¬(3 ≤ r ∧ f ≤ 2) ∧ ¬(r ≤ 2 ∧ 4 ≤ f) ∧ ¬(r ≤ 2 ∧ f ≤ 2))) := by
  interval_cases r <;> interval_cases f <;> interval_cases m <;>
    exact ⟨by decide, by decide, by decide, by decide, by decide, by decide, by decide⟩

/-- Witness for C1 at the concrete triple (4,4,4). -/
theorem segment_rule_table_witness :
    ((1 : Nat) ≤ 4 ∧ (4 : Nat) ≤ 5) ∧
    (segment_customer 4 4 4 = "Champions" ↔ (4 ≤ 4 ∧ 4 ≤ 4 ∧ 4 ≤ 4)) :=
  ⟨by decide, (segment_rule_table 4 4 4 (by decide) (by decide) (by decide)
    (by decide) (by decide) (by decide)).1⟩

/-- C2 counterexample: `tiedRecencyTable` is accepted by all three `qcut`
calls (its Recency bin edges 1, 2, 13/5, 22/5, 31/5, 8 are strictly
increasing), yet R_Score value 5 occurs 4 times in a population of 10 — more
than one unit away from 10/5 = 2. -/
theorem quintile_balance_counterexample :
    scorerAccepts tiedRecencyTable ∧
    (scoreTable tiedRecencyTable).countP (fun s => decide (s.rScore = 5)) = 4 ∧
    tiedRecencyTable.length = 10 ∧
    ¬(5 * (scoreTable tiedRecencyTable).countP (fun s => decide (s.rScore = 5)) ≤
        tiedRecencyTable.length + 5) := by decide

/-- C2 (amended): for every aggregate table accepted by the quintile scorer,
every customer's three scores are integers in [1,5]; and each score value's
frequency is within one unit of population/5 for every score column whose
binned values are pairwise distinct (the raw Recency and Monetary values, the
rank column for Frequency) — with tied binned values an accepted table can
deviate by more, as the counterexample shows. -/
theorem quintile_scores_bounded_balanced (t : List Agg) (_hacc : scorerAccepts t) :
    (∀ s ∈ scoreTable t,
      (1 ≤ s.rScore ∧ s.rScore ≤ 5) ∧ (1 ≤ s.fScore ∧ s.fScore ≤ 5) ∧
        (1 ≤ s.mScore ∧ s.mScore ≤ 5)) ∧
    ((recencies t).Nodup → ∀ k, 1 ≤ k → k ≤ 5 →
      t.length ≤ 5 * (scoreTable t).countP (fun s => decide (s.rScore = k)) + 5 ∧
      5 * (scoreTable t).countP (fun s => decide (s.rScore = k)) ≤ t.length + 5) ∧
    ((fRanks t).Nodup → ∀ k, 1 ≤ k → k ≤ 5 →
      t.length ≤ 5 * (scoreTable t).countP (fun s => decide (s.fScore = k)) + 5 ∧
      5 * (scoreTable t).countP (fun s => decide (s.fScore = k)) ≤ t.length + 5) ∧
    ((monetaries t).Nodup → ∀ k, 1 ≤ k → k ≤ 5 →
      t.length ≤ 5 * (scoreTable t).countP (fun s => decide (s.mScore = k)) + 5 ∧
      5 * (scoreTable t).countP (fun s => decide (s.mScore = k)) ≤ t.length + 5) := by
  refine ⟨fun s hs => mem_scoreTable_bounds hs, fun hd k hk1 hk5 => ?_,
    fun hd k hk1 hk5 => ?_, fun hd k hk1 hk5 => ?_⟩
  · rw [countP_scoreTable_r t hk1 hk5]
    have h := qcut_balanced hd (k := 6 - k) (by omega) (by omega)
    rw [length_recencies t] at h
    exact h
  · rw [countP_scoreTable_f t k]
    have h := qcut_balanced hd hk1 hk5
    rw [length_fRanks t] at h
    exact h
  · rw [countP_scoreTable_m t k]
    have h := qcut_balanced hd hk1 hk5
    rw [length_monetaries t] at h
    exact h

/-- Witness for the amended C2 on a five-customer table with pairwise
distinct metrics, at R_Score value 3. -/
theorem quintile_scores_bounded_balanced_witness :
    (scorerAccepts distinctTable ∧ (recencies distinctTable).Nodup ∧
      ((1 : Nat) ≤ 3 ∧ (3 : Nat) ≤ 5)) ∧
    (distinctTable.length ≤
        5 * (scoreTable distinctTable).countP (fun s => decide (s.rScore = 3)) + 5 ∧
      5 * (scoreTable distinctTable).countP (fun s => decide (s.rScore = 3)) ≤
        distinctTable.length + 5) :=
  ⟨by decide, (quintile_scores_bounded_balanced distinctTable (by decide)).2.1
    (by decide) 3 (by decide) (by decide)⟩

/-- C3 counterexample: in `twoCountryRows` customer 7 has invoices recorded
under two countries; after the Country left-join the customer appears twice
in the final table. -/
theorem customer_unique_counterexample :
    ((7 : Int) ∈ twoCountryRows.map (·.customerID)) ∧
    (mergeCountry (finalTable (aggTable twoCountryRows)) twoCountryRows).countP
        (fun pr => decide (pr.1.agg.customerID = 7)) = 2 := by decide

/-- C3 (amended): every customer id occurring in the cleaned table appears
exactly once as a row of the classified RFM table, and the optional Country
left-join preserves this provided the customer carries at most one distinct
(CustomerID, Country) pair — with two or more distinct pairs the join
duplicates the customer's row (see the counterexample). -/
theorem customer_appears_once (rows : List Row) (c : Int)
    (hc : c ∈ rows.map (·.customerID)) :
    (finalTable (aggTable rows)).countP
        (fun rec => decide (rec.agg.customerID = c)) = 1 ∧
    ((countryPairs rows).countP (fun q => decide (q.1 = c)) ≤ 1 →
      (mergeCountry (finalTable (aggTable rows)) rows).countP
        (fun pr => decide (pr.1.agg.customerID = c)) = 1) := by
  refine ⟨finalTable_cid_once hc, fun hone => ?_⟩
  rw [countP_mergeCountry rows c hone]
  exact finalTable_cid_once hc

/-- Witness for the amended C3 on `exRows` at customer 7. -/
theorem customer_appears_once_witness :
    ((7 : Int) ∈ exRows.map (·.customerID) ∧
      (countryPairs exRows).countP (fun q => decide (q.1 = 7)) ≤ 1) ∧
    ((finalTable (aggTable exRows)).countP
        (fun rec => decide (rec.agg.customerID = 7)) = 1 ∧
      (mergeCountry (finalTable (aggTable exRows)) exRows).countP
        (fun pr => decide (pr.1.agg.customerID = 7)) = 1) :=
  ⟨by decide, ⟨(customer_appears_once exRows 7 (by decide)).1,
    (customer_appears_once exRows 7 (by decide)).2 (by decide)⟩⟩

/-- C4: with the reference date derived as the maximum invoice date of the
whole cleaned table plus one day, every customer occurring in the cleaned
table has a non-negative Recency. -/
theorem recency_nonneg (rows : List Row) (c : Int)
    (hc : c ∈ rows.map (·.customerID)) :
    0 ≤ recencyOf rows c := by
  unfold recencyOf tdDays
  apply Int.fdiv_nonneg _ (by norm_num [oneDay])
  rcases List.mem_map.mp hc with ⟨r, hr, hrc⟩
  have hrmem : r ∈ rowsOf rows c := by
    unfold rowsOf
    rw [List.mem_filter]
    exact ⟨hr, by simp [hrc]⟩
  have hne : (rowsOf rows c).map (·.invoiceDate) ≠ [] := by
    intro he
    have hmm : r.invoiceDate ∈ (rowsOf rows c).map (·.invoiceDate) :=
      List.mem_map.mpr ⟨r, hrmem, rfl⟩
    rw [he] at hmm
    simp at hmm
  have hmem := listMax_mem hne
  have hsub : listMax ((rowsOf rows c).map (·.invoiceDate)) ∈
      rows.map (·.invoiceDate) := by
    rcases List.mem_map.mp hmem with ⟨s, hs, hsd⟩
    unfold rowsOf at hs
    exact List.mem_map.mpr ⟨s, (List.mem_filter.mp hs).1, hsd⟩
  have hle := le_listMax hsub
  unfold rfm_ref_date oneDay
  omega

/-- Witness for C4 on `exRows` at customer 7. -/
theorem recency_nonneg_witness :
    ((7 : Int) ∈ exRows.map (·.customerID)) ∧ 0 ≤ recencyOf exRows 7 :=
  ⟨by decide, recency_nonneg exRows 7 (by decide)⟩

/-- C5: the RFM aggregation is order-independent: any permutation of the
cleaned rows yields the same Recency, Frequency and Monetary for every
customer, and the same aggregate table. -/
theorem aggregation_order_independent (r₁ r₂ : List Row) (h : r₁.Perm r₂) :
    (∀ c : Int, recencyOf r₁ c = recencyOf r₂ c ∧
      frequencyOf r₁ c = frequencyOf r₂ c ∧ monetaryOf r₁ c = monetaryOf r₂ c) ∧
    aggTable r₁ = aggTable r₂ :=
  ⟨fun c => ⟨recencyOf_perm h c, frequencyOf_perm h c, monetaryOf_perm h c⟩,
    aggTable_perm h⟩

/-- Witness for C5: `exRowsP` is a rotation of `exRows` with the same
aggregate table. -/
theorem aggregation_order_independent_witness :
    exRows.Perm exRowsP ∧ aggTable exRows = aggTable exRowsP :=
  ⟨by decide, (aggregation_order_independent exRows exRowsP (by decide)).2⟩

/-- C6: the Segment → Suggested Action mapping is total and fixed with the
seven documented strings, the classifier only ever produces those seven
segments, and every classified customer row carries one of the seven
documented actions. -/
theorem action_mapping_total_fixed :
    (suggestedAction "Champions" = some "Offer VIP loyalty reward" ∧
     suggestedAction "Loyal Customers" = some "Upsell premium products" ∧
     suggestedAction "Potential Loyalist" = some "Send exclusive preview" ∧
     suggestedAction "Recent Customers" = some "Welcome email & offer" ∧
     suggestedAction "At Risk" = some "Send win-back campaign" ∧
     suggestedAction "Lost" = some "Big discount or let go" ∧
     suggestedAction "Others" = some "General promotions") ∧
    (∀ r f m : Nat, segment_customer r f m ∈
      ["Champions", "Loyal Customers", "Potential Loyalist", "Recent Customers",
       "At Risk", "Lost", "Others"]) ∧
    (∀ t : List Agg, ∀ rec ∈ finalTable t, rec.action ∈
      [some "Offer VIP loyalty reward", some "Upsell premium products",
       some "Send exclusive preview", some "Welcome email & offer",
       some "Send win-back campaign", some "Big discount or let go",
       some "General promotions"]) := by
  refine ⟨by decide, segment_customer_mem, ?_⟩
  intro t rec hrec
  unfold finalTable at hrec
  rcases List.mem_map.mp hrec with ⟨s, hs, he⟩
  subst he
  exact suggestedAction_of_segment s.rScore s.fScore s.mScore

/-- Witness for C6 on a concrete classified row of `exRows`. -/
theorem action_mapping_total_fixed_witness :
    ((⟨⟨7, 2, 2, 11⟩, 1, 5, 5, "155", "At Risk",
        some "Send win-back campaign"⟩ : FinalRec) ∈
      finalTable (aggTable exRows)) ∧
    (⟨⟨7, 2, 2, 11⟩, 1, 5, 5, "155", "At Risk",
        some "Send win-back campaign"⟩ : FinalRec).action ∈
      [some "Offer VIP loyalty reward", some "Upsell premium products",
       some "Send exclusive preview", some "Welcome email & offer",
       some "Send win-back campaign", some "Big discount or let go",
       some "General promotions"] :=
  ⟨by decide, action_mapping_total_fixed.2.2 (aggTable exRows) _ (by decide)⟩

/-- C7 counterexample: customers 20 and 30 of `tieRows` have equal Frequency.
The code ranks the groupby-sorted aggregate table, so customer 20 receives
F_Score 1 and customer 30 receives F_Score 2 although customer 30's row is
first-seen in the raw data; and swapping the two raw rows (`tieRowsP`)
changes no score — the tie is not broken by original row order. -/
theorem fscore_order_counterexample :
    tieRows.Perm tieRowsP ∧
    frequencyOf tieRows 20 = frequencyOf tieRows 30 ∧
    (scoreTable (aggTable tieRows)).countP
        (fun s => decide (s.agg.customerID = 20 ∧ s.fScore = 1)) = 1 ∧
    (scoreTable (aggTable tieRows)).countP
        (fun s => decide (s.agg.customerID = 30 ∧ s.fScore = 2)) = 1 ∧
    scoreTable (aggTable tieRowsP) = scoreTable (aggTable tieRows) := by decide

/-- C7 (amended): F_Score equal-frequency bins the ranks produced by
rank(method='first') on the Frequency column of the aggregate table, whose
row order is ascending CustomerID (groupby sorts the keys), not raw
first-seen order. Two customers with equal Frequency can indeed receive
different F_Scores, but the scored table never depends on the original
transaction row order. -/
theorem fscore_rank_by_customer_order (r₁ r₂ : List Row) (h : r₁.Perm r₂) :
    scoreTable (aggTable r₁) = scoreTable (aggTable r₂) ∧
    ∃ t : List Row, ∃ s₁, s₁ ∈ scoreTable (aggTable t) ∧ ∃ s₂,
      s₂ ∈ scoreTable (aggTable t) ∧
      s₁.agg.frequency = s₂.agg.frequency ∧ s₁.fScore ≠ s₂.fScore := by
  constructor
  · rw [aggTable_perm h]
  · exact ⟨tieRows, ⟨⟨20, 5, 1, 9⟩, 2, 1, 2⟩, by decide,
      ⟨⟨30, 6, 1, 7⟩, 1, 2, 1⟩, by decide, by decide, by decide⟩

/-- Witness for the amended C7 on the permuted pair `tieRows`, `tieRowsP`. -/
theorem fscore_rank_by_customer_order_witness :
    tieRows.Perm tieRowsP ∧
    scoreTable (aggTable tieRows) = scoreTable (aggTable tieRowsP) :=
  ⟨by decide, (fscore_rank_by_customer_order tieRows tieRowsP (by decide)).1⟩

/-- C8: within one scored population R_Score is anti-monotone in Recency:
a strictly smaller (more recent) Recency receives a greater-or-equal
R_Score. -/
theorem rscore_antitone_in_recency (t : List Agg) (s₁ s₂ : Scored)
    (h₁ : s₁ ∈ scoreTable t) (h₂ : s₂ ∈ scoreTable t)
    (hlt : s₁.agg.recency < s₂.agg.recency) :
    s₂.rScore ≤ s₁.rScore := by
  rcases mem_scoreTable_r h₁ with ⟨-, hr₁⟩
  rcases mem_scoreTable_r h₂ with ⟨-, hr₂⟩
  rw [hr₁, hr₂]
  have hm := qcutBin_mono (recencies t) (le_of_lt hlt)
  omega

/-- Witness for C8 on the three-customer scenario (Recency 1, 30, 90). -/
theorem rscore_antitone_in_recency_witness :
    ((⟨⟨1, 1, 5, 100⟩, 5, 5, 5⟩ : Scored) ∈ scoreTable scenarioTable ∧
     (⟨⟨2, 30, 3, 50⟩, 3, 3, 3⟩ : Scored) ∈ scoreTable scenarioTable ∧
     (⟨⟨1, 1, 5, 100⟩, 5, 5, 5⟩ : Scored).agg.recency <
       (⟨⟨2, 30, 3, 50⟩, 3, 3, 3⟩ : Scored).agg.recency) ∧
    (⟨⟨2, 30, 3, 50⟩, 3, 3, 3⟩ : Scored).rScore ≤
      (⟨⟨1, 1, 5, 100⟩, 5, 5, 5⟩ : Scored).rScore :=
  ⟨by decide, rscore_antitone_in_recency scenarioTable _ _
    (by decide) (by decide) (by decide)⟩

/-- C9: if any required column is absent, the loader stops with an error
naming exactly the missing required fields, so no later stage runs; with all
required columns present it returns the raw table unchanged. -/
theorem loader_validation (cols : List String) (t : List RawRow) :
    (missingCols cols = [] → validateColumns cols t = .ok t) ∧
    (missingCols cols ≠ [] → validateColumns cols t = .error (missingCols cols)) ∧
    (∀ s, s ∈ missingCols cols ↔ (s ∈ required_cols ∧ s ∉ cols)) := by
  refine ⟨fun h => ?_, fun h => ?_, fun s => ?_⟩
  · unfold validateColumns
    rw [if_pos h]
  · unfold validateColumns
    rw [if_neg h]
  · unfold missingCols
    rw [List.mem_filter]
    simp

/-- Witness for C9: a table missing only CustomerID is rejected with exactly
that column named. -/
theorem loader_validation_witness :
    (missingCols ["InvoiceNo", "Quantity", "UnitPrice", "InvoiceDate"] ≠ [] ∧
     missingCols ["InvoiceNo", "Quantity", "UnitPrice", "InvoiceDate"] =
       ["CustomerID"]) ∧
    validateColumns ["InvoiceNo", "Quantity", "UnitPrice", "InvoiceDate"] [] =
      .error (missingCols ["InvoiceNo", "Quantity", "UnitPrice", "InvoiceDate"]) :=
  ⟨by decide, (loader_validation _ []).2.1 (by decide)⟩

/-- C10: every classified customer row's RFM_Score is a three-character
string whose characters are all among '1'..'5'. -/
theorem rfm_score_string_shape (t : List Agg) (rec : FinalRec)
    (h : rec ∈ finalTable t) :
    rec.rfmScore.length = 3 ∧ ∀ ch ∈ rec.rfmScore.toList, '1' ≤ ch ∧ ch ≤ '5' := by
  unfold finalTable at h
  rcases List.mem_map.mp h with ⟨s, hs, he⟩
  subst he
  rcases mem_scoreTable_bounds hs with ⟨⟨hr1, hr5⟩, ⟨hf1, hf5⟩, ⟨hm1, hm5⟩⟩
  have key : ∀ a b c : Nat, 1 ≤ a → a ≤ 5 → 1 ≤ b → b ≤ 5 → 1 ≤ c → c ≤ 5 →
      (rfmScoreStr a b c).length = 3 ∧
        ∀ ch ∈ (rfmScoreStr a b c).toList, '1' ≤ ch ∧ ch ≤ '5' := by
    intro a b c ha1 ha5 hb1 hb5 hc1 hc5
    interval_cases a <;> interval_cases b <;> interval_cases c <;> decide
  exact key _ _ _ hr1 hr5 hf1 hf5 hm1 hm5

/-- Witness for C10 on a concrete classified row of `exRows`. -/
theorem rfm_score_string_shape_witness :
    ((⟨⟨7, 2, 2, 11⟩, 1, 5, 5, "155", "At Risk",
        some "Send win-back campaign"⟩ : FinalRec) ∈
      finalTable (aggTable exRows)) ∧
    ((⟨⟨7, 2, 2, 11⟩, 1, 5, 5, "155", "At Risk",
        some "Send win-back campaign"⟩ : FinalRec).rfmScore.length = 3 ∧
      ∀ ch ∈ (⟨⟨7, 2, 2, 11⟩, 1, 5, 5, "155", "At Risk",
        some "Send win-back campaign"⟩ : FinalRec).rfmScore.toList,
        '1' ≤ ch ∧ ch ≤ '5') :=
  ⟨by decide, rfm_score_string_shape (aggTable exRows) _ (by decide)⟩
